import Mathlib

/-!
Verification of the analytics reporting and notification fan-out logic of a
travel-search backend.  The definitions below are a shallow embedding of the
TypeScript modules `reportsModule.ts`, `logsModule.ts`, `analyticsModule.ts`
and the in-process websocket registry: JavaScript numbers on the code paths in
question hold exact small integers and simple ratios, so they are modelled by
`Int`, `Nat` and `Rat`; strings are modelled by `List Char`; database reads
are lists passed explicitly.
-/

namespace FlyArzan

/-- JavaScript `Math.round` on the exact values arising here: round half
toward positive infinity, i.e. the floor of `x + 1/2`. -/
def jsRound (q : ℚ) : ℤ := ⌊q + 1/2⌋

/-! ### Fixed-window rates (`GET /metrics`, `GET /engagement/summary`)

Source: `const clickRateLast = searchLast ? clickLast / searchLast : 0;`
and `const ctr = searches ? (clickouts / searches) * 100 : 0;`. -/

/-- Click-out rate from `reportsModule.ts` line 47: the JavaScript conditional
`searches ? clicks / searches : 0` tests `searches` for zero. -/
def clickRate (clicks searches : ℕ) : ℚ :=
  if searches = 0 then 0 else (clicks : ℚ) / (searches : ℚ)

/-- CTR from `reportsModule.ts` line 688:
`searches ? (clickouts / searches) * 100 : 0`. -/
def ctr (clickouts searches : ℕ) : ℚ :=
  if searches = 0 then 0 else ((clickouts : ℚ) / (searches : ℚ)) * 100

/-! ### Top-routes conversion (`GET /top-routes`) -/

/-- Conversion from `reportsModule.ts` lines 222-224:
`searches ? Math.round((clickouts / searches) * 1000) / 10 : 0`. -/
def conversion (searches clickouts : ℕ) : ℚ :=
  if searches = 0 then 0
  else (jsRound (((clickouts : ℚ) / (searches : ℚ)) * 1000) : ℚ) / 10

/-- Row cap of the top-routes query, `take: q.limit ?? 10`
(`reportsModule.ts` line 193): the sorted route groups are truncated at the
requested limit, defaulting to 10. -/
def topRoutesTake {α : Type} (groups : List α) (limit : Option ℕ) : List α :=
  groups.take (limit.getD 10)

/-! ### Trending routes (`GET /routes/trending`) -/

/-- Raw week-over-week growth from `reportsModule.ts` line 315:
`prev ? ((curr - prev) / prev) * 100 : 100`. -/
def growth (curr prev : ℕ) : ℚ :=
  if prev = 0 then 100 else (((curr : ℚ) - (prev : ℚ)) / (prev : ℚ)) * 100

/-- Growth as reported, `Math.round(growth * 10) / 10`
(`reportsModule.ts` line 318). -/
def reportedGrowth (curr prev : ℕ) : ℚ :=
  (jsRound (growth curr prev * 10) : ℚ) / 10

/-- A route group as returned by the grouped search-event query:
origin, destination and the group count. -/
def RouteGroup : Type := (List Char × List Char) × ℕ

/-! ### Hourly bucketing (`GET /metrics/timeseries`)

Timestamps are modelled as integer milliseconds, exactly the value of
`Date.getTime()` on the code path in question. -/

/-- One hour in milliseconds, written `60 * 60 * 1000` in the source. -/
def hourMs : ℤ := 60 * 60 * 1000

/-- The helper `subHours(d, h)` from `reportsModule.ts` line 9:
`new Date(d.getTime() - h * 60 * 60 * 1000)`. -/
def subHours (t h : ℤ) : ℤ := t - h * hourMs

/-- The hourly bucket assignment from `reportsModule.ts` lines 104-109:
`diffH = Math.floor((end - d) / 3600000); idx = 23 - diffH;` returning the
index when `idx >= 0 && idx < 24` and null otherwise.  `Math.floor` of the
ratio of integers is integer floor division. -/
def bucketIndex (endMs t : ℤ) : Option ℤ :=
  let diffMs := endMs - t
  let diffH := Int.fdiv diffMs hourMs
  let idx := 23 - diffH
  if 0 ≤ idx ∧ idx < 24 then some idx else none

/-! ### Monthly bucketing (`GET /trends/searches`, `GET /trends/prices`)

A JavaScript `Date` is modelled by its calendar year, its (normalized,
0-based) month, and an abstract position `sub` inside that month measuring
milliseconds from the start of the month; chronological order is the
lexicographic order on (year * 12 + month, sub). -/

structure JsDate where
  year : ℤ
  month : ℤ
  sub : ℕ

/-- Absolute month number of a date, `year * 12 + month`. -/
def ymAbs (d : JsDate) : ℤ := d.year * 12 + d.month

/-- Chronological order on dates (the order of the underlying timestamps). -/
def dateLe (a b : JsDate) : Prop :=
  ymAbs a < ymAbs b ∨ (ymAbs a = ymAbs b ∧ a.sub ≤ b.sub)

/-- Strict chronological order on dates. -/
def dateLt (a b : JsDate) : Prop :=
  ymAbs a < ymAbs b ∨ (ymAbs a = ymAbs b ∧ a.sub < b.sub)

/-- The series anchor from `reportsModule.ts` line 532:
`new Date(end.getFullYear(), end.getMonth() - (months - 1), 1)`.  The `Date`
constructor normalizes an out-of-range month into the year, preserving
`year * 12 + month`; the first of the month at midnight has `sub = 0`. -/
def mkMonthStart (endD : JsDate) (months : ℤ) : JsDate :=
  let ym := ymAbs endD - (months - 1)
  ⟨ym / 12, ym % 12, 0⟩

/-- The month slot assignment from `reportsModule.ts` lines 545-548:
`(d.getFullYear() - start.getFullYear()) * 12 + d.getMonth() -
start.getMonth()`. -/
def mapIndex (start d : JsDate) : ℤ :=
  (d.year - start.year) * 12 + d.month - start.month

/-- The body of the accumulation loop from `reportsModule.ts` lines 554-557:
an event bumps the slot `mapIndex(event)` when `idx >= 0 && idx < months`,
and is skipped otherwise. -/
def trendStep (months : ℕ) (start : JsDate) (acc : List ℕ) (d : JsDate) :
    List ℕ :=
  let idx := mapIndex start d
  if 0 ≤ idx ∧ idx < (months : ℤ) then
    acc.set idx.toNat (acc.getD idx.toNat 0 + 1)
  else acc

/-- The per-slot accumulation loop from `reportsModule.ts` lines 549-557: an
array of `months` zero-initialised slots, folded over the fetched events. -/
def trendSeries (months : ℕ) (start : JsDate) (events : List JsDate) : List ℕ :=
  events.foldl (trendStep months start) (List.replicate months 0)

/-- The months-parameter clamp from `reportsModule.ts` lines 527-530:
`Math.max(1, Math.min(24, parseInt(query or "12")))`; an absent parameter
parses as 12. -/
def clampMonths (q : Option ℤ) : ℤ :=
  match q with
  | none => 12
  | some v => max 1 (min 24 v)

/-- Calendar month shown for slot `i` of the trend series
(`new Date(start.getFullYear(), start.getMonth() + i, 1)` in the source),
as an absolute month number. -/
def slotMonth (start : JsDate) (i : ℤ) : ℤ := ymAbs start + i

instance (a b : JsDate) : Decidable (dateLe a b) := by
  unfold dateLe
  infer_instance

instance (a b : JsDate) : Decidable (dateLt a b) := by
  unfold dateLt
  infer_instance

/-! ### CSV rendering (`buildCsv`, `GET /top-routes`)

`buildCsv` takes the header keys from the first row and renders every cell
with `JSON.stringify(r[h] ?? "")`. -/

/-- A scalar cell value occurring in the reporting rows: a string, a number,
or null (also standing for an absent field). -/
inductive JsValue where
  | str (s : List Char)
  | num (q : ℚ)
  | null
deriving DecidableEq

/-- JSON escaping of one character of a string value, as performed by
`JSON.stringify` for the characters occurring here. -/
def jsonEscapeChar (ch : Char) : List Char :=
  if ch = '"' then ['\\', '"']
  else if ch = '\\' then ['\\', '\\']
  else if ch = '\n' then ['\\', 'n']
  else if ch = '\r' then ['\\', 'r']
  else if ch = '\t' then ['\\', 't']
  else [ch]

/-- Digit accumulator for decimal rendering (fuel-driven division loop). -/
def natReprAux : ℕ → ℕ → List Char → List Char
  | 0, _, acc => acc
  | fuel + 1, n, acc =>
    if n = 0 then acc
    else natReprAux fuel (n / 10) (Char.ofNat (48 + n % 10) :: acc)

/-- Decimal rendering of a natural number. -/
def natRepr (n : ℕ) : List Char := if n = 0 then ['0'] else natReprAux n n []

/-- Decimal rendering of an integer. -/
def intRepr (z : ℤ) : List Char :=
  if z < 0 then '-' :: natRepr z.natAbs else natRepr z.natAbs

/-- Rendering of a numeric cell.  JavaScript integers render as their digit
string; the rendering of non-integer values is abstracted as num/den (like
the JS rendering it is quote-free and newline-free, which is all the
properties below use). -/
def numRepr (q : ℚ) : List Char :=
  if q.den = 1 then intRepr q.num else intRepr q.num ++ '/' :: natRepr q.den

/-- `JSON.stringify` on a cell value. -/
def jsonStringify : JsValue → List Char
  | .str s => '"' :: (s.flatMap jsonEscapeChar) ++ ['"']
  | .num q => numRepr q
  | .null => ['n', 'u', 'l', 'l']

/-- The `?? ""` default applied to each cell before stringification. -/
def orEmpty : JsValue → JsValue
  | .null => .str []
  | v => v

/-- One rendered CSV cell, `JSON.stringify(r[h] ?? "")`. -/
def csvCell (v : JsValue) : List Char := jsonStringify (orEmpty v)

/-- A report row: ordered association list of field name to value. -/
abbrev ReportRow : Type := List (List Char × JsValue)

/-- Field access `r[h]`: null when the key is absent (an absent field also
falls into the `?? ""` default). -/
def getField (r : ReportRow) (h : List Char) : JsValue :=
  match r.find? (fun p => p.1 == h) with
  | some p => p.2
  | none => .null

/-- `Array.prototype.join(sep)` for a one-character separator. -/
def joinSep (sep : Char) : List (List Char) → List Char
  | [] => []
  | [x] => x
  | x :: y :: xs => x ++ sep :: joinSep sep (y :: xs)

/-- `buildCsv` from `reportsModule.ts` lines 12-20: empty row list gives the
empty string; otherwise the header line is the first row's keys joined by
commas, followed by one line per row with every cell stringified, all joined
by newlines. -/
def buildCsv (rows : List ReportRow) : List Char :=
  match rows with
  | [] => []
  | r0 :: _ =>
    let headers := r0.map (fun p => p.1)
    joinSep '\n'
      (joinSep ',' headers ::
        rows.map (fun r =>
          joinSep ',' (headers.map (fun h => csvCell (getField r h)))))

/-- `String.prototype.split(sep)` for a one-character separator. -/
def splitOnChar (sep : Char) : List Char → List (List Char)
  | [] => [[]]
  | c :: cs =>
    if c = sep then [] :: splitOnChar sep cs
    else
      match splitOnChar sep cs with
      | [] => [[c]]
      | l :: ls => (c :: l) :: ls

/-- The response of a reporting endpoint: JSON rows, or a CSV body together
with the content-type and content-disposition header values. -/
inductive ReportResponse where
  | json (rows : List ReportRow)
  | csv (body ctype disposition : List Char)
deriving DecidableEq

/-- The format dispatch of `GET /top-routes` (`reportsModule.ts` lines
235-245): the csv branch builds the CSV from the same `rows` value that the
json branch returns, setting content type text/csv and a filename derived
from the range parameter (default last24h). -/
def topRoutesRespond (rows : List ReportRow) (format : Option (List Char))
    (range : Option (List Char)) : ReportResponse :=
  if format.getD "json".data = "csv".data then
    .csv (buildCsv rows) "text/csv; charset=utf-8".data
      ("attachment; filename=top-routes-".data ++
        range.getD "last24h".data ++ ".csv".data)
  else .json rows

/-! ### Search-log export (`GET /search-logs/export`, `logsModule.ts`) -/

/-- One row of the search-event log, with the columns the export touches. -/
structure SearchLog where
  createdAt : ℤ
  origin : List Char
  destination : List Char
  tripType : List Char
  travelClass : Option (List Char)
  adults : ℕ
  children : ℕ
  browser : Option (List Char)
  browserVersion : Option (List Char)
  os : Option (List Char)
  osVersion : Option (List Char)
  deviceType : Option (List Char)
  country : Option (List Char)
  region : Option (List Char)
  ipMasked : Option (List Char)

/-- The optional query filters of `GET /search-logs/export`
(`logsModule.ts` lines 152-171). -/
structure LogFilter where
  startDate : Option ℤ
  endDate : Option ℤ
  origin : Option (List Char)
  destination : Option (List Char)
  tripType : Option (List Char)
  os : Option (List Char)
  browser : Option (List Char)
  deviceType : Option (List Char)
  country : Option (List Char)
  travelClass : Option (List Char)

/-- Case-insensitive `contains` (Prisma mode insensitive). -/
def containsInsensitive (hay needle : List Char) : Bool :=
  decide ((needle.map Char.toLower) <:+: (hay.map Char.toLower))

/-- Exact-match filter on a nullable column (null never matches a set
filter). -/
def matchOpt (f : Option (List Char)) (v : Option (List Char)) : Bool :=
  match f with
  | none => true
  | some x => v == some x

/-- The `where` object built by the export handler: date range (gte/lte),
case-insensitive contains on origin and destination, exact match on the
remaining fields; absent filters match everything. -/
def logMatches (f : LogFilter) (r : SearchLog) : Bool :=
  (match f.startDate with
    | none => true
    | some s => decide (s ≤ r.createdAt)) &&
  (match f.endDate with
    | none => true
    | some e => decide (r.createdAt ≤ e)) &&
  (match f.origin with
    | none => true
    | some o => containsInsensitive r.origin o) &&
  (match f.destination with
    | none => true
    | some dst => containsInsensitive r.destination dst) &&
  (match f.tripType with
    | none => true
    | some t => r.tripType == t) &&
  matchOpt f.os r.os &&
  matchOpt f.browser r.browser &&
  matchOpt f.deviceType r.deviceType &&
  matchOpt f.country r.country &&
  matchOpt f.travelClass r.travelClass

/-- Insertion step of the descending sort on createdAt. -/
def insertByCreatedAtDesc (a : SearchLog) :
    List SearchLog → List SearchLog
  | [] => [a]
  | b :: bs =>
    if b.createdAt ≤ a.createdAt then a :: b :: bs
    else b :: insertByCreatedAtDesc a bs

/-- The `orderBy createdAt desc` of the export query. -/
def sortByCreatedAtDesc (l : List SearchLog) : List SearchLog :=
  l.foldr insertByCreatedAtDesc []

/-- The export read, `logsModule.ts` lines 173-177: filtered rows, newest
first, capped by `take: 10000`. -/
def exportRows (db : List SearchLog) (f : LogFilter) : List SearchLog :=
  (sortByCreatedAtDesc (db.filter (logMatches f))).take 10000

/-- The fixed header row of the export CSV (`logsModule.ts` lines 180-194). -/
def exportHeader : List (List Char) :=
  ["Timestamp".data, "Origin".data, "Destination".data, "Trip Type".data,
    "Travel Class".data, "Adults".data, "Children".data, "Browser".data,
    "OS".data, "Device Type".data, "Country".data, "Region".data,
    "IP (Masked)".data]

/-- The thirteen cells of one exported row (`logsModule.ts` lines 196-210);
the ISO rendering of the timestamp is abstracted as the decimal rendering of
the epoch milliseconds. -/
def exportRowCells (log : SearchLog) : List (List Char) :=
  [intRepr log.createdAt,
    log.origin,
    log.destination,
    log.tripType,
    log.travelClass.getD [],
    natRepr log.adults,
    natRepr log.children,
    (match log.browser with
      | none => []
      | some b => b ++ (match log.browserVersion with
        | none => []
        | some v => ' ' :: v)),
    (match log.os with
      | none => []
      | some o => o ++ (match log.osVersion with
        | none => []
        | some v => ' ' :: v)),
    log.deviceType.getD [],
    log.country.getD [],
    log.region.getD [],
    log.ipMasked.getD []]

/-- The whole export handler as a state transformer on the event log: it
returns the CSV rows (header first) and the database state after the
request, which the handler, performing only a findMany, leaves unchanged. -/
def searchLogsExport (db : List SearchLog) (f : LogFilter) :
    List (List (List Char)) × List SearchLog :=
  (exportHeader :: (exportRows db f).map exportRowCells, db)

/-! ### Notification fan-out registry (`src/lib/websocket.ts`)

The websocket registry module imported by `notificationModule.ts` is staged
as the second document inside `src/src/lib/permissions-service.ts` (lines
331-541).  It keeps the map
`const clients = new Map<string, Set<WebSocket>>()`: each user can have
multiple simultaneous connections.  The map is modelled as an association
list in insertion order (the iteration order of a JS Map); connection
handles are opaque and modelled by natural numbers; a JS Set of handles is
a duplicate-free list. -/

/-- The `clients` map, keyed by user identifier. -/
abbrev Registry : Type := List (String × List ℕ)

/-- The connection-open handler of the registry (lines 363-367):
`if (!clients.has(userId)) clients.set(userId, new Set());` then
`clients.get(userId)!.add(ws);` — a fresh one-element entry is created for
a user without one (Map.set on a new key appends in insertion order),
otherwise the connection is added to the user's set, Set.add being a no-op
on a connection already present. -/
def register (u : String) (c : ℕ) : Registry → Registry
  | [] => [(u, [c])]
  | (v, cs) :: rest =>
    if v = u then (v, if c ∈ cs then cs else c :: cs) :: rest
    else (v, cs) :: register u c rest

/-- The close handler of the registry (lines 386-395):
`userConnections.delete(ws)` followed by `clients.delete(userId)` when
`userConnections.size === 0`; a no-op when the user has no entry. -/
def unregister (u : String) (c : ℕ) : Registry → Registry
  | [] => []
  | (v, cs) :: rest =>
    if v = u then
      (if cs.erase c = [] then rest else (v, cs.erase c) :: rest)
    else (v, cs) :: unregister u c rest

/-- `clients.has(userId)`, the map-membership test used by the open
handler. -/
def hasUser (u : String) (r : Registry) : Bool :=
  r.any (fun e => decide (e.1 = u))

/-- `isUserOnline` (lines 536-539): `clients.get(userId)` followed by
`connections !== undefined && connections.size > 0`. -/
def isUserOnline (u : String) : Registry → Bool
  | [] => false
  | (v, cs) :: rest =>
    if v = u then decide (0 < cs.length) else isUserOnline u rest

/-- `getConnectedUsersCount` (lines 518-520): `clients.size`, the number of
user entries in the map. -/
def getConnectedUsersCount (r : Registry) : ℕ := r.length

/-- `getTotalConnectionsCount` (lines 525-531): the sizes of all the
connection sets summed. -/
def getTotalConnectionsCount (r : Registry) : ℕ :=
  (r.map (fun e => e.2.length)).sum

/-- Registering a list of connections for one user, one at a time. -/
def registerAll (u : String) (cs : List ℕ) (r : Registry) : Registry :=
  cs.foldl (fun r c => register u c r) r

/-- Closing a list of connections for one user, one at a time. -/
def unregisterAll (u : String) (cs : List ℕ) (r : Registry) : Registry :=
  cs.foldl (fun r c => unregister u c r) r

/-- The invariant the two handlers maintain: a user identifier is present
in the map only with at least one open connection (the close handler
removes the entry when the set becomes empty, and the open handler creates
an entry only together with its first connection). -/
def registryWF (r : Registry) : Prop := ∀ p ∈ r, p.2 ≠ []

/-- Set insertion as performed by `register` on an existing entry. -/
def setInsert (c : ℕ) (s : List ℕ) : List ℕ := if c ∈ s then s else c :: s

/-- The connection set accumulated by registering `cs` on top of `s`. -/
def foldSet (cs : List ℕ) (s : List ℕ) : List ℕ :=
  cs.foldl (fun s c => setInsert c s) s

/-! ### IP masking (`maskIp`, `analyticsModule.ts` lines 13-27) -/

/-- Leftmost-occurrence replacement of `pat` by the empty string: the
behavior of `String.prototype.replace` with a string pattern, as in
`ip.replace("::ffff:", "")`. -/
def replaceFirstSeq (pat : List Char) : List Char → List Char
  | [] => []
  | c :: cs =>
    if pat.isPrefixOf (c :: cs) then (c :: cs).drop pat.length
    else c :: replaceFirstSeq pat cs

/-- The dotted branch of `maskIp` (lines 17-20): when the cleaned address
contains a dot and splits on dots into exactly four parts, keep the first
two octets and zero the rest; otherwise fall through. -/
def maskDot (cleaned : List Char) : Option (List Char) :=
  if '.' ∈ cleaned then
    (let parts := splitOnChar '.' cleaned
     if parts.length = 4 then
       some ((parts.getD 0 []) ++ '.' :: (parts.getD 1 []) ++ ".0.0".data)
     else none)
  else none

/-- The colon branch of `maskIp` (lines 22-25): when the cleaned address
contains a colon, keep the first two colon-separated segments and append
two colons. -/
def maskColon (cleaned : List Char) : Option (List Char) :=
  if ':' ∈ cleaned then
    some (joinSep ':' ((splitOnChar ':' cleaned).take 2) ++ "::".data)
  else none

/-- `maskIp` from `analyticsModule.ts` lines 13-27: falsy input (absent or
empty) gives undefined; otherwise the first occurence of the IPv6-mapped
prefix is stripped, the dotted branch is tried, then the colon branch, and
anything else gives undefined. -/
def maskIp : Option (List Char) → Option (List Char)
  | none => none
  | some ip =>
    if ip = [] then none
    else
      let cleaned := replaceFirstSeq "::ffff:".data ip
      (maskDot cleaned).elim (maskColon cleaned) some

/-- The value persisted in the `ipMasked` field by `POST /search`
(`analyticsModule.ts` line 111): `ipMasked: maskIp(ip)`. -/
def postSearchIpMasked (ip : Option (List Char)) : Option (List Char) :=
  maskIp ip

/-- The value persisted in the `ipMasked` field by `POST /clickout`
(`analyticsModule.ts` line 152): `ipMasked: maskIp(ip)`. -/
def postClickoutIpMasked (ip : Option (List Char)) : Option (List Char) :=
  maskIp ip

/-! ### Geo rollup by country (`GET /geo/regions`, country branch) -/

/-- The key of one fetched row, `(r.country as string) || "Unknown"`
(`reportsModule.ts` line 447): the empty string is falsy. -/
def countryKey (c : List Char) : List Char :=
  if c = [] then "Unknown".data else c

/-- One `agg.set(key, (agg.get(key) || 0) + 1)` step of the aggregation
(`reportsModule.ts` line 448), on an association list. -/
def bumpCountry (agg : List (List Char × ℕ)) (k : List Char) :
    List (List Char × ℕ) :=
  match agg with
  | [] => [(k, 1)]
  | (k0, n) :: rest =>
    if k0 = k then (k0, n + 1) :: rest else (k0, n) :: bumpCountry rest k

/-- The per-country tally over the fetched in-window rows with non-null
country (`reportsModule.ts` lines 445-449). -/
def countryAgg (rows : List (List Char)) : List (List Char × ℕ) :=
  rows.foldl (fun agg r => bumpCountry agg (countryKey r)) []

/-- Insertion step of the sort by descending count,
`sort((a, b) => b[1] - a[1])` (`reportsModule.ts` line 450). -/
def insertCountDesc (p : List Char × ℕ) :
    List (List Char × ℕ) → List (List Char × ℕ)
  | [] => [p]
  | q :: qs => if q.2 ≤ p.2 then p :: q :: qs else q :: insertCountDesc p qs

/-- The descending sort of the aggregated country counts. -/
def sortCountDesc (l : List (List Char × ℕ)) : List (List Char × ℕ) :=
  l.foldr insertCountDesc []

/-- The `top` clamp of `GET /geo/regions` (lines 434-437):
`Math.max(1, Math.min(12, parseInt(top or "6")))`. -/
def clampTop (q : Option ℤ) : ℤ := max 1 (min 12 (q.getD 6))

/-- The country branch of `GET /geo/regions` (lines 444-459): aggregate by
country, sort by count descending, keep the top-N entries, and append an
Other entry holding the tail total exactly when that total is positive. -/
def geoCountryResult (rows : List (List Char)) (topQ : Option ℤ) :
    List (List Char × ℕ) :=
  let top := (clampTop topQ).toNat
  let sorted := sortCountDesc (countryAgg rows)
  let headRows := sorted.take top
  let otherCount := ((sorted.drop top).map (fun p => p.2)).sum
  if 0 < otherCount then headRows ++ [("Other".data, otherCount)]
  else headRows

end FlyArzan

namespace FlyArzan

/-- C2: for all non-negative counts, the click-out rate and the CTR are
non-negative rationals, equal exactly 0 when searches = 0, and for positive
searches satisfy rate * searches = clicks (resp. ctr * searches =
clickouts * 100), i.e. they are the exact ratios; the computation is total,
so no NaN and no thrown division error can arise. -/
theorem clickRate_ctr_safe (clicks clickouts searches : ℕ) :
    0 ≤ clickRate clicks searches ∧ 0 ≤ ctr clickouts searches ∧
    clickRate clicks 0 = 0 ∧ ctr clickouts 0 = 0 ∧
    (0 < searches →
      clickRate clicks searches * searches = clicks ∧
      ctr clickouts searches * searches = (clickouts : ℚ) * 100) := by
  refine ⟨?_, ?_, by simp [clickRate], by simp [ctr], ?_⟩
  · unfold clickRate
    split
    · exact le_refl 0
    · positivity
  · unfold ctr
    split
    · exact le_refl 0
    · positivity
  · intro hs
    have hs0 : (searches : ℚ) ≠ 0 := by
      exact_mod_cast Nat.pos_iff_ne_zero.mp hs
    constructor
    · unfold clickRate
      rw [if_neg (Nat.pos_iff_ne_zero.mp hs)]
      field_simp
    · unfold ctr
      rw [if_neg (Nat.pos_iff_ne_zero.mp hs)]
      field_simp

/-- Witness for `clickRate_ctr_safe` at clicks = 3, clickouts = 4,
searches = 2. -/
theorem clickRate_ctr_safe_witness :
    clickRate 3 2 * 2 = 3 ∧ ctr 4 2 * 2 = (4 : ℚ) * 100 :=
  (clickRate_ctr_safe 3 4 2).2.2.2.2 (by decide)

/-- C3: the top-routes conversion field equals
round(clickouts / searches * 1000) / 10 for positive searches (one-decimal
percent, 24.3 on the fixture of 37 searches and 9 clickouts), equals 0 when
searches = 0, and the returned rows are capped at the requested limit,
defaulting to 10. -/
theorem topRoutes_conversion_correct :
    (∀ s c : ℕ, 0 < s →
      conversion s c = (jsRound (((c : ℚ) / (s : ℚ)) * 1000) : ℚ) / 10) ∧
    (∀ c : ℕ, conversion 0 c = 0) ∧
    conversion 37 9 = 243 / 10 ∧
    (∀ (groups : List RouteGroup) (lim : Option ℕ),
      (topRoutesTake groups lim).length ≤ lim.getD 10) ∧
    (∀ groups : List RouteGroup, (topRoutesTake groups none).length ≤ 10) := by
  refine ⟨?_, ?_, ?_, ?_, ?_⟩
  · intro s c hs
    unfold conversion
    rw [if_neg (Nat.pos_iff_ne_zero.mp hs)]
  · intro c
    simp [conversion]
  · simp only [conversion, jsRound]
    norm_num
  · intro groups lim
    simp [topRoutesTake]
  · intro groups
    simp [topRoutesTake]

/-- Witness for `topRoutes_conversion_correct` at searches = 37,
clickouts = 9. -/
theorem topRoutes_conversion_correct_witness :
    conversion 37 9 = (jsRound (((9 : ℚ) / (37 : ℚ)) * 1000) : ℚ) / 10 :=
  topRoutes_conversion_correct.1 37 9 (by decide)

/-- C4 counterexample: for thisWeek = 1 and lastWeek = 3 the reported growth
is the rounded value -66.7, not the exact ratio (1 - 3) / 3 * 100 = -200 / 3,
because the code applies Math.round(growth * 10) / 10 before reporting. -/
theorem trending_growth_exact_counterexample :
    reportedGrowth 1 3 ≠ (((1 : ℚ) - 3) / 3) * 100 := by
  simp only [reportedGrowth, growth, jsRound]
  norm_num

/-- C4 amended: the reported week-over-week growth equals the raw growth
(thisWeek - lastWeek) / lastWeek * 100 rounded to one decimal via
Math.round(growth * 10) / 10 when the prior week count is positive, and
equals exactly 100 when the prior week count is zero (the rounding fixes
100 exactly). -/
theorem trending_growth_rounded (curr prev : ℕ) :
    (0 < prev →
      reportedGrowth curr prev =
        (jsRound (((((curr : ℚ) - prev) / prev) * 100) * 10) : ℚ) / 10) ∧
    reportedGrowth curr 0 = 100 ∧ growth curr 0 = 100 := by
  refine ⟨?_, ?_, by simp [growth]⟩
  · intro hp
    unfold reportedGrowth growth
    rw [if_neg (Nat.pos_iff_ne_zero.mp hp)]
  · simp only [reportedGrowth, growth, if_pos rfl, jsRound]
    norm_num

/-- Witness for `trending_growth_rounded` at curr = 1, prev = 3. -/
theorem trending_growth_rounded_witness :
    reportedGrowth 1 3 =
      (jsRound (((((1 : ℚ) - 3) / 3) * 100) * 10) : ℚ) / 10 :=
  (trending_growth_rounded 1 3).1 (by decide)

/-- Interval characterization of the hourly bucket assignment: index `i` is
assigned exactly on the half-open interval
(end - (24 - i) h, end - (23 - i) h]. -/
lemma bucketIndex_eq_some_iff (endMs t i : ℤ) :
    bucketIndex endMs t = some i ↔
      0 ≤ i ∧ i < 24 ∧
        endMs - (24 - i) * hourMs < t ∧ t ≤ endMs - (23 - i) * hourMs := by
  simp only [bucketIndex, hourMs]
  rw [Int.fdiv_eq_ediv _ (by norm_num)]
  by_cases hc :
      0 ≤ 23 - (endMs - t) / (60 * 60 * 1000) ∧
        23 - (endMs - t) / (60 * 60 * 1000) < 24
  · rw [if_pos hc]
    simp only [Option.some.injEq]
    omega
  · rw [if_neg hc]
    constructor
    · intro h
      exact Option.noConfusion h
    · intro h
      exfalso
      omega

lemma ymAbs_mkMonthStart (endD : JsDate) (months : ℤ) :
    ymAbs (mkMonthStart endD months) = ymAbs endD - (months - 1) := by
  simp only [mkMonthStart, ymAbs]
  omega

lemma mapIndex_eq_ymAbs (start d : JsDate) :
    mapIndex start d = ymAbs d - ymAbs start := by
  simp only [mapIndex, ymAbs]
  ring

/-- Any in-window event of the monthly trend window maps into [0, months). -/
lemma mapIndex_mem_range (months : ℤ) (endD t : JsDate) (_hm : 1 ≤ months)
    (hle : dateLe (mkMonthStart endD months) t) (hlt : dateLt t endD) :
    0 ≤ mapIndex (mkMonthStart endD months) t ∧
      mapIndex (mkMonthStart endD months) t < months := by
  have hstart := ymAbs_mkMonthStart endD months
  have h1 : ymAbs (mkMonthStart endD months) ≤ ymAbs t := by
    rcases hle with h | ⟨h, _⟩ <;> omega
  have h2 : ymAbs t ≤ ymAbs endD := by
    rcases hlt with h | ⟨h, _⟩ <;> omega
  rw [mapIndex_eq_ymAbs]
  omega

/-- C1 corrected counterexample: with end = 86400000 ms the event at
timestamp 0 lies in the queried window [end - 24h, end) (the query is
createdAt gte start, lt end) but the hourly bucketer returns null for it, so
this in-window event is dropped. -/
theorem bucket_boundary_dropped_counterexample :
    subHours 86400000 24 ≤ 0 ∧ (0 : ℤ) < 86400000 ∧
      bucketIndex 86400000 0 = none := by
  refine ⟨by decide, by decide, by decide⟩

/-- C1 amended: the hourly bucketer covers the open window
(end - 24h, end): every event strictly inside it is assigned exactly one of
the 24 bucket indices (only the single boundary instant end - 24h, which the
half-open query window does include, is dropped); bucket `i` is assigned
exactly on the half-open hour (end - (24 - i) h, end - (23 - i) h], so
distinct buckets never share an event.  The monthly bucketer is exhaustive
as claimed: every event in [seriesStart, end) maps to exactly one slot index
in [0, months). -/
theorem bucket_assignment_amended :
    (∀ endMs t : ℤ, subHours endMs 24 < t → t < endMs →
      ∃ i, bucketIndex endMs t = some i ∧ 0 ≤ i ∧ i < 24) ∧
    (∀ endMs t i j : ℤ,
      bucketIndex endMs t = some i → bucketIndex endMs t = some j → i = j) ∧
    (∀ endMs t i : ℤ, bucketIndex endMs t = some i ↔
      0 ≤ i ∧ i < 24 ∧
        endMs - (24 - i) * hourMs < t ∧ t ≤ endMs - (23 - i) * hourMs) ∧
    (∀ (months : ℤ) (endD t : JsDate), 1 ≤ months →
      dateLe (mkMonthStart endD months) t → dateLt t endD →
        0 ≤ mapIndex (mkMonthStart endD months) t ∧
          mapIndex (mkMonthStart endD months) t < months) := by
  refine ⟨?_, ?_, bucketIndex_eq_some_iff, mapIndex_mem_range⟩
  · intro endMs t h1 h2
    simp only [subHours, hourMs] at h1
    refine ⟨23 - (endMs - t) / (60 * 60 * 1000),
      (bucketIndex_eq_some_iff endMs t _).mpr ?_, ?_, ?_⟩
    · simp only [hourMs]
      omega
    · omega
    · omega
  · intro endMs t i j hi hj
    rw [hi] at hj
    exact Option.some.inj hj

/-- Witness for `bucket_assignment_amended`: an event 90 minutes before the
window end lands in bucket 22, and the noon event of March 2025 sits in slot
2 of a 12-month window ending May 2025. -/
theorem bucket_assignment_amended_witness :
    (∃ i, bucketIndex 86400000 (86400000 - 5400000) = some i ∧
      0 ≤ i ∧ i < 24) ∧
    (0 ≤ mapIndex (mkMonthStart ⟨2025, 4, 7⟩ 12) ⟨2025, 2, 5⟩ ∧
      mapIndex (mkMonthStart ⟨2025, 4, 7⟩ 12) ⟨2025, 2, 5⟩ < 12) :=
  ⟨bucket_assignment_amended.1 86400000 (86400000 - 5400000)
      (by decide) (by decide),
    bucket_assignment_amended.2.2.2 12 ⟨2025, 4, 7⟩ ⟨2025, 2, 5⟩ (by decide)
      (by decide) (by decide)⟩

lemma trendStep_length (months : ℕ) (start : JsDate) (acc : List ℕ)
    (d : JsDate) : (trendStep months start acc d).length = acc.length := by
  simp only [trendStep]
  split
  · exact List.length_set acc _ _
  · rfl

lemma trendSeries_foldl_length (months : ℕ) (start : JsDate) :
    ∀ (events : List JsDate) (acc : List ℕ),
      (events.foldl (trendStep months start) acc).length = acc.length := by
  intro events
  induction events with
  | nil => intro acc; rfl
  | cons d evs ih =>
    intro acc
    rw [List.foldl_cons, ih]
    exact trendStep_length months start acc d

lemma trendStep_in_range (months : ℕ) (start : JsDate) (acc : List ℕ)
    (d : JsDate) (hd : 0 ≤ mapIndex start d ∧ mapIndex start d < (months : ℤ)) :
    trendStep months start acc d =
      acc.set (mapIndex start d).toNat
        (acc.getD (mapIndex start d).toNat 0 + 1) := by
  simp only [trendStep]
  rw [if_pos hd]

lemma trendStep_out_of_range (months : ℕ) (start : JsDate) (acc : List ℕ)
    (d : JsDate)
    (hd : ¬ (0 ≤ mapIndex start d ∧ mapIndex start d < (months : ℤ))) :
    trendStep months start acc d = acc := by
  simp only [trendStep]
  rw [if_neg hd]

lemma trendSeries_foldl_getD (months : ℕ) (start : JsDate) :
    ∀ (events : List JsDate) (acc : List ℕ), acc.length = months →
      ∀ i : ℕ, i < months →
        (events.foldl (trendStep months start) acc).getD i 0 =
          acc.getD i 0 +
            events.countP (fun d => decide (mapIndex start d = (i : ℤ))) := by
  intro events
  induction events with
  | nil =>
    intro acc _ i _
    simp
  | cons d evs ih =>
    intro acc hlen i hi
    rw [List.foldl_cons, List.countP_cons]
    by_cases hd : 0 ≤ mapIndex start d ∧ mapIndex start d < (months : ℤ)
    · rw [trendStep_in_range months start acc d hd,
        ih _ (by rw [List.length_set]; exact hlen) i hi]
      by_cases hie : (mapIndex start d).toNat = i
      · have hveq : mapIndex start d = (i : ℤ) := by omega
        rw [List.getD_eq_getElem?_getD, ← hie,
          List.getElem?_set_self (by omega), hie]
        simp [hveq, List.getD_eq_getElem?_getD]
        omega
      · have hvne : ¬ (mapIndex start d = (i : ℤ)) := by omega
        rw [List.getD_eq_getElem?_getD, List.getElem?_set_ne hie,
          ← List.getD_eq_getElem?_getD]
        simp [hvne]
    · rw [trendStep_out_of_range months start acc d hd, ih _ hlen i hi]
      have hvne : ¬ (mapIndex start d = (i : ℤ)) := by omega
      simp [hvne]

/-- C5: the months parameter is clamped to [1, 24] with default 12; the
monthly trend series always has exactly `months` slots; slot `i` holds
exactly the number of fetched events whose timestamp maps to month index
`i`, so events mapping outside [0, months) are excluded; and the series is
anchored so that the last slot is the month of the current instant. -/
theorem trends_series_shape (monthsQ : Option ℤ) (endD : JsDate)
    (events : List JsDate) :
    1 ≤ clampMonths monthsQ ∧ clampMonths monthsQ ≤ 24 ∧
      clampMonths none = 12 ∧
    (∀ (M : ℕ) (start : JsDate), (trendSeries M start events).length = M) ∧
    (∀ (M : ℕ) (start : JsDate) (i : ℕ), i < M →
      (trendSeries M start events).getD i 0 =
        events.countP (fun d => decide (mapIndex start d = (i : ℤ)))) ∧
    (∀ M : ℤ, 1 ≤ M →
      mapIndex (mkMonthStart endD M) endD = M - 1 ∧
      slotMonth (mkMonthStart endD M) (M - 1) = ymAbs endD) := by
  refine ⟨?_, ?_, rfl, ?_, ?_, ?_⟩
  · cases monthsQ with
    | none => decide
    | some v => simp only [clampMonths]; omega
  · cases monthsQ with
    | none => decide
    | some v => simp only [clampMonths]; omega
  · intro M start
    rw [trendSeries, trendSeries_foldl_length M start events _,
      List.length_replicate]
  · intro M start i hi
    rw [trendSeries,
      trendSeries_foldl_getD M start events _ (List.length_replicate M 0) i hi]
    simp [List.getD_eq_getElem?_getD, List.getElem?_replicate, hi]
  · intro M hM
    have h := ymAbs_mkMonthStart endD M
    rw [mapIndex_eq_ymAbs]
    constructor
    · omega
    · simp only [slotMonth]
      omega

/-- Witness for `trends_series_shape`: with a 12-month window ending in May
2025, slot 2 of the series over a single March 2025 event counts exactly
that event, and the final slot is May 2025. -/
theorem trends_series_shape_witness :
    (trendSeries 12 (mkMonthStart ⟨2025, 4, 7⟩ 12) [⟨2025, 2, 5⟩]).getD 2 0 =
      List.countP (fun d => decide (mapIndex (mkMonthStart ⟨2025, 4, 7⟩ 12) d
        = (2 : ℤ))) [⟨2025, 2, 5⟩] ∧
    mapIndex (mkMonthStart ⟨2025, 4, 7⟩ 12) ⟨2025, 4, 7⟩ = 11 :=
  ⟨(trends_series_shape (some 12) ⟨2025, 4, 7⟩ [⟨2025, 2, 5⟩]).2.2.2.2.1
      12 (mkMonthStart ⟨2025, 4, 7⟩ 12) 2 (by decide),
    ((trends_series_shape (some 12) ⟨2025, 4, 7⟩ [⟨2025, 2, 5⟩]).2.2.2.2.2
      12 (by decide)).1⟩

lemma newline_not_mem_jsonEscapeChar (ch : Char) :
    Char.ofNat 10 ∉ jsonEscapeChar ch := by
  unfold jsonEscapeChar
  by_cases h1 : ch = '"'
  · rw [if_pos h1]; decide
  rw [if_neg h1]
  by_cases h2 : ch = '\\'
  · rw [if_pos h2]; decide
  rw [if_neg h2]
  by_cases h3 : ch = '\n'
  · rw [if_pos h3]; decide
  rw [if_neg h3]
  by_cases h4 : ch = '\x0d'
  · rw [if_pos h4]; decide
  rw [if_neg h4]
  by_cases h5 : ch = '\t'
  · rw [if_pos h5]; decide
  rw [if_neg h5]
  intro hmem
  exact h3 (by rw [← List.mem_singleton.mp hmem])

lemma char_ofNat_digit_ne_newline (d : ℕ) (hd : d < 10) :
    Char.ofNat (48 + d) ≠ Char.ofNat 10 := by
  interval_cases d <;> decide

lemma newline_not_mem_natReprAux :
    ∀ (fuel n : ℕ) (acc : List Char), Char.ofNat 10 ∉ acc →
      Char.ofNat 10 ∉ natReprAux fuel n acc := by
  intro fuel
  induction fuel with
  | zero => intro n acc h; exact h
  | succ f ih =>
    intro n acc h
    unfold natReprAux
    split
    · exact h
    · apply ih
      intro hmem
      rcases List.mem_cons.mp hmem with heq | hacc
      · exact char_ofNat_digit_ne_newline (n % 10)
          (Nat.mod_lt _ (by norm_num)) heq.symm
      · exact h hacc

lemma newline_not_mem_natRepr (n : ℕ) : Char.ofNat 10 ∉ natRepr n := by
  unfold natRepr
  split
  · decide
  · exact newline_not_mem_natReprAux n n [] (by simp)

lemma newline_not_mem_intRepr (z : ℤ) : Char.ofNat 10 ∉ intRepr z := by
  unfold intRepr
  split
  · intro hmem
    rcases List.mem_cons.mp hmem with heq | hacc
    · exact absurd heq (by decide)
    · exact newline_not_mem_natRepr _ hacc
  · exact newline_not_mem_natRepr _

lemma newline_not_mem_numRepr (q : ℚ) : Char.ofNat 10 ∉ numRepr q := by
  unfold numRepr
  split
  · exact newline_not_mem_intRepr _
  · intro hmem
    rcases List.mem_append.mp hmem with hl | hr
    · exact newline_not_mem_intRepr _ hl
    · rcases List.mem_cons.mp hr with heq | hacc
      · exact absurd heq (by decide)
      · exact newline_not_mem_natRepr _ hacc

lemma newline_not_mem_csvCell (v : JsValue) : Char.ofNat 10 ∉ csvCell v := by
  have hstr : ∀ s : List Char,
      Char.ofNat 10 ∉ jsonStringify (JsValue.str s) := by
    intro s hmem
    simp only [jsonStringify] at hmem
    rcases List.mem_cons.mp hmem with heq | hmem2
    · exact absurd heq (by decide)
    · rcases List.mem_append.mp hmem2 with hl | hr
      · rcases List.mem_flatMap.mp hl with ⟨a, _, ha⟩
        exact newline_not_mem_jsonEscapeChar a ha
      · exact absurd (List.mem_singleton.mp hr) (by decide)
  cases v with
  | str s => exact hstr s
  | num q => exact newline_not_mem_numRepr q
  | null => exact hstr []

lemma newline_not_mem_joinSep_comma :
    ∀ (cells : List (List Char)), (∀ cell ∈ cells, Char.ofNat 10 ∉ cell) →
      Char.ofNat 10 ∉ joinSep ',' cells := by
  intro cells
  induction cells with
  | nil => intro _ hmem; exact absurd hmem (by decide)
  | cons x tl ih =>
    intro h
    cases tl with
    | nil => exact h x (by simp)
    | cons y tl2 =>
      intro hmem
      rcases List.mem_append.mp hmem with hl | hr
      · exact h x (by simp) hl
      · rcases List.mem_cons.mp hr with heq | hacc
        · exact absurd heq (by decide)
        · exact ih (fun cell hc => h cell (List.mem_cons_of_mem x hc)) hacc

lemma splitOnChar_of_not_mem (sep : Char) :
    ∀ (l : List Char), sep ∉ l → splitOnChar sep l = [l] := by
  intro l
  induction l with
  | nil => intro _; rfl
  | cons c cs ih =>
    intro h
    have hc : ¬ (c = sep) := fun hcs => h (hcs ▸ List.mem_cons_self c cs)
    simp only [splitOnChar, if_neg hc,
      ih (fun hm => h (List.mem_cons_of_mem c hm))]

lemma splitOnChar_append (sep : Char) :
    ∀ (pre rest : List Char), sep ∉ pre →
      splitOnChar sep (pre ++ sep :: rest) = pre :: splitOnChar sep rest := by
  intro pre
  induction pre with
  | nil =>
    intro rest _
    show splitOnChar sep (sep :: rest) = [] :: splitOnChar sep rest
    simp [splitOnChar]
  | cons c cs ih =>
    intro rest h
    have hc : ¬ (c = sep) := fun hcs => h (hcs ▸ List.mem_cons_self c cs)
    rw [List.cons_append]
    show splitOnChar sep (c :: (cs ++ sep :: rest)) = _
    simp only [splitOnChar, if_neg hc]
    rw [ih rest (fun hm => h (List.mem_cons_of_mem c hm))]

lemma splitOnChar_joinSep (sep : Char) :
    ∀ (ls : List (List Char)), ls ≠ [] → (∀ l ∈ ls, sep ∉ l) →
      splitOnChar sep (joinSep sep ls) = ls := by
  intro ls
  induction ls with
  | nil => intro h _; exact absurd rfl h
  | cons x tl ih =>
    intro _ hmem
    cases tl with
    | nil => exact splitOnChar_of_not_mem sep x (hmem x (by simp))
    | cons y tl2 =>
      show splitOnChar sep (x ++ sep :: joinSep sep (y :: tl2)) = x :: y :: tl2
      rw [splitOnChar_append sep x _ (hmem x (by simp)),
        ih (by simp) (fun l hl => hmem l (List.mem_cons_of_mem x hl))]

/-- C6 counterexample to the quoting clause: a numeric cell renders through
JSON.stringify without surrounding quotes, so not every CSV value is quoted:
a one-row list whose single field is the number 5 yields the CSV body
searches-newline-5, and the data cell is the bare digit 5 with no leading
quote. -/
theorem csv_value_unquoted_counterexample :
    buildCsv [[("searches".data, JsValue.num 5)]] =
      "searches".data ++ Char.ofNat 10 :: ['5'] ∧
    csvCell (JsValue.num 5) = ['5'] ∧
    (csvCell (JsValue.num 5)).head? ≠ some '"' := by
  refine ⟨by decide, by decide, by decide⟩

/-- C6 amended: the CSV and JSON branches of the endpoint are built from the
same row list; the empty row list yields the empty CSV; string values are
quoted (numeric values render unquoted, see the counterexample); splitting
the CSV body on newlines yields exactly the header line, built from the
first row's keys, followed by one line per row in order, each line the
comma-join of that row's stringified cells, so the two renderings carry the
same underlying values row-for-row; the csv response carries the fixed
text/csv content type and the top-routes filename derived only from the
range parameter. -/
theorem csv_json_same_rows (rows : List ReportRow)
    (range : Option (List Char)) :
    topRoutesRespond rows (some "csv".data) range =
      ReportResponse.csv (buildCsv rows) "text/csv; charset=utf-8".data
        ("attachment; filename=top-routes-".data ++
          range.getD "last24h".data ++ ".csv".data) ∧
    topRoutesRespond rows none range = ReportResponse.json rows ∧
    buildCsv [] = [] ∧
    (∀ s, csvCell (JsValue.str s) = '"' :: (s.flatMap jsonEscapeChar) ++ ['"']) ∧
    (∀ r0 tl, rows = r0 :: tl →
      (∀ k ∈ r0.map (fun p => p.1), Char.ofNat 10 ∉ k) →
      splitOnChar (Char.ofNat 10) (buildCsv rows) =
        joinSep ',' (r0.map (fun p => p.1)) ::
          rows.map (fun r => joinSep ','
            ((r0.map (fun p => p.1)).map (fun h => csvCell (getField r h)))) ∧
      (splitOnChar (Char.ofNat 10) (buildCsv rows)).length = rows.length + 1) := by
  refine ⟨?_, ?_, rfl, fun s => rfl, ?_⟩
  · rw [topRoutesRespond, if_pos (by decide)]
  · rw [topRoutesRespond, if_neg (by decide)]
  · intro r0 tl hrows hkeys
    subst hrows
    have hlines : ∀ line ∈
        joinSep ',' (r0.map (fun p => p.1)) ::
          (r0 :: tl).map (fun r => joinSep ','
            ((r0.map (fun p => p.1)).map (fun h => csvCell (getField r h)))),
        Char.ofNat 10 ∉ line := by
      intro line hline
      rcases List.mem_cons.mp hline with heq | hmem
      · subst heq
        exact newline_not_mem_joinSep_comma _ hkeys
      · rcases List.mem_map.mp hmem with ⟨r, _, hr⟩
        subst hr
        apply newline_not_mem_joinSep_comma
        intro cell hcell
        rcases List.mem_map.mp hcell with ⟨h, _, hh⟩
        subst hh
        exact newline_not_mem_csvCell _
    have hnl : Char.ofNat 10 = '\n' := by decide
    have hsplit := splitOnChar_joinSep (Char.ofNat 10) _
      (List.cons_ne_nil _ _) hlines
    constructor
    · show splitOnChar (Char.ofNat 10)
        (joinSep '\n' (joinSep ',' (r0.map (fun p => p.1)) :: _)) = _
      rw [← hnl]
      exact hsplit
    · show (splitOnChar (Char.ofNat 10)
        (joinSep '\n' (joinSep ',' (r0.map (fun p => p.1)) :: _))).length = _
      rw [← hnl, hsplit]
      simp

/-- Witness for `csv_json_same_rows` on a concrete two-row list. -/
theorem csv_json_same_rows_witness :
    splitOnChar (Char.ofNat 10)
      (buildCsv [[("origin".data, JsValue.str "LAX".data)],
        [("origin".data, JsValue.str "JFK".data)]]) =
      joinSep ','
          ([(("origin".data : List Char), JsValue.str "LAX".data)].map
            (fun p => p.1)) ::
        [[(("origin".data : List Char), JsValue.str "LAX".data)],
          [("origin".data, JsValue.str "JFK".data)]].map
          (fun r => joinSep ','
            (([(("origin".data : List Char), JsValue.str "LAX".data)].map
              (fun p => p.1)).map (fun h => csvCell (getField r h)))) :=
  ((csv_json_same_rows
    [[("origin".data, JsValue.str "LAX".data)],
      [("origin".data, JsValue.str "JFK".data)]] none).2.2.2.2
    _ _ rfl (by decide)).1

/-- C7: for every database state and filter combination, the search-log
export reads at most 10000 event rows, the produced CSV consists of the
header row plus exactly one row per exported event (so at most 10001 rows),
and the handler leaves the event log unchanged. -/
theorem export_capped_and_readonly (db : List SearchLog) (f : LogFilter) :
    (exportRows db f).length ≤ 10000 ∧
    (searchLogsExport db f).1.length = (exportRows db f).length + 1 ∧
    (searchLogsExport db f).1.length ≤ 10001 ∧
    (searchLogsExport db f).2 = db := by
  have h1 : (exportRows db f).length ≤ 10000 := by
    unfold exportRows
    exact List.length_take_le _ _
  refine ⟨h1, by simp [searchLogsExport], ?_, rfl⟩
  simp only [searchLogsExport, List.length_cons, List.length_map]
  omega

lemma register_wf (u : String) (c : ℕ) :
    ∀ (r : Registry), registryWF r → registryWF (register u c r) := by
  intro r
  induction r with
  | nil =>
    intro _ p hp
    rw [List.mem_singleton.mp hp]
    exact List.cons_ne_nil c []
  | cons e rest ih =>
    obtain ⟨v, cs⟩ := e
    intro hwf
    simp only [register]
    by_cases hv : v = u
    · rw [if_pos hv]
      intro p hp
      rcases List.mem_cons.mp hp with rfl | hmem
      · by_cases hc : c ∈ cs
        · rw [if_pos hc]
          exact hwf (v, cs) (List.mem_cons_self _ _)
        · rw [if_neg hc]
          exact List.cons_ne_nil c cs
      · exact hwf p (List.mem_cons_of_mem _ hmem)
    · rw [if_neg hv]
      intro p hp
      rcases List.mem_cons.mp hp with rfl | hmem
      · exact hwf (v, cs) (List.mem_cons_self _ _)
      · exact ih (fun q hq => hwf q (List.mem_cons_of_mem _ hq)) p hmem

lemma unregister_wf (u : String) (c : ℕ) :
    ∀ (r : Registry), registryWF r → registryWF (unregister u c r) := by
  intro r
  induction r with
  | nil => intro _; exact fun p hp => absurd hp (List.not_mem_nil p)
  | cons e rest ih =>
    obtain ⟨v, cs⟩ := e
    intro hwf
    simp only [unregister]
    by_cases hv : v = u
    · rw [if_pos hv]
      by_cases he : cs.erase c = []
      · rw [if_pos he]
        exact fun p hp => hwf p (List.mem_cons_of_mem _ hp)
      · rw [if_neg he]
        intro p hp
        rcases List.mem_cons.mp hp with rfl | hmem
        · exact he
        · exact hwf p (List.mem_cons_of_mem _ hmem)
    · rw [if_neg hv]
      intro p hp
      rcases List.mem_cons.mp hp with rfl | hmem
      · exact hwf (v, cs) (List.mem_cons_self _ _)
      · exact ih (fun q hq => hwf q (List.mem_cons_of_mem _ hq)) p hmem

lemma hasUser_cons_false {u v : String} {cs : List ℕ} {rest : Registry}
    (h : hasUser u ((v, cs) :: rest) = false) :
    v ≠ u ∧ hasUser u rest = false := by
  simp only [hasUser, List.any_cons, Bool.or_eq_false_iff,
    decide_eq_false_iff_not] at h
  exact ⟨h.1, h.2⟩

lemma isUserOnline_eq_hasUser (u : String) :
    ∀ (r : Registry), registryWF r → isUserOnline u r = hasUser u r := by
  intro r
  induction r with
  | nil => intro _; rfl
  | cons e rest ih =>
    obtain ⟨v, cs⟩ := e
    intro hwf
    simp only [isUserOnline, hasUser, List.any_cons]
    by_cases hv : v = u
    · have hcs : cs ≠ [] := hwf (v, cs) (List.mem_cons_self _ _)
      rw [if_pos hv]
      simp [hv, List.length_pos.mpr hcs]
    · rw [if_neg hv]
      have hrest := ih (fun q hq => hwf q (List.mem_cons_of_mem _ hq))
      simp only [hasUser] at hrest
      rw [hrest]
      simp [hv]

lemma register_not_online (u : String) (c : ℕ) :
    ∀ (r : Registry), hasUser u r = false →
      register u c r = r ++ [(u, [c])] := by
  intro r
  induction r with
  | nil => intro _; rfl
  | cons e rest ih =>
    obtain ⟨v, cs⟩ := e
    intro h
    obtain ⟨hv, hrest⟩ := hasUser_cons_false h
    simp only [register, if_neg hv, List.cons_append, ih hrest]

lemma register_append (u : String) (c : ℕ) (S : List ℕ) :
    ∀ (r : Registry), hasUser u r = false →
      register u c (r ++ [(u, S)]) = r ++ [(u, setInsert c S)] := by
  intro r
  induction r with
  | nil =>
    intro _
    rw [List.nil_append]
    simp only [register]
    rw [if_true]
    rfl
  | cons e rest ih =>
    obtain ⟨v, cs⟩ := e
    intro h
    obtain ⟨hv, hrest⟩ := hasUser_cons_false h
    rw [List.cons_append]
    simp only [register]
    rw [if_neg hv, ih hrest, List.cons_append]

lemma registerAll_append (u : String) :
    ∀ (cs S : List ℕ) (r : Registry), hasUser u r = false →
      registerAll u cs (r ++ [(u, S)]) = r ++ [(u, foldSet cs S)] := by
  intro cs
  induction cs with
  | nil => intro S r _; rfl
  | cons c cs0 ih =>
    intro S r h
    show registerAll u cs0 (register u c (r ++ [(u, S)])) =
      r ++ [(u, foldSet (c :: cs0) S)]
    rw [register_append u c S r h]
    exact ih (setInsert c S) r h

lemma unregister_not_online (u : String) (c : ℕ) :
    ∀ (r : Registry), hasUser u r = false → unregister u c r = r := by
  intro r
  induction r with
  | nil => intro _; rfl
  | cons e rest ih =>
    obtain ⟨v, cs⟩ := e
    intro h
    obtain ⟨hv, hrest⟩ := hasUser_cons_false h
    simp only [unregister, if_neg hv, ih hrest]

lemma unregisterAll_not_online (u : String) :
    ∀ (L : List ℕ) (r : Registry), hasUser u r = false →
      unregisterAll u L r = r := by
  intro L
  induction L with
  | nil => intro r _; rfl
  | cons c L0 ih =>
    intro r h
    show unregisterAll u L0 (unregister u c r) = r
    rw [unregister_not_online u c r h]
    exact ih r h

lemma unregister_append (u : String) (c : ℕ) (S : List ℕ) :
    ∀ (r : Registry), hasUser u r = false →
      unregister u c (r ++ [(u, S)]) =
        (if S.erase c = [] then r else r ++ [(u, S.erase c)]) := by
  intro r
  induction r with
  | nil =>
    intro _
    rw [List.nil_append]
    simp only [unregister]
    rw [if_true]
    by_cases he : S.erase c = []
    · rw [if_pos he, if_pos he]
    · rw [if_neg he, if_neg he]
      rfl
  | cons e rest ih =>
    obtain ⟨v, cs⟩ := e
    intro h
    obtain ⟨hv, hrest⟩ := hasUser_cons_false h
    rw [List.cons_append]
    simp only [unregister]
    rw [if_neg hv, ih hrest]
    by_cases he : S.erase c = []
    · rw [if_pos he, if_pos he]
    · rw [if_neg he, if_neg he, List.cons_append]

lemma setInsert_ne_nil (c : ℕ) (s : List ℕ) : setInsert c s ≠ [] := by
  by_cases hc : c ∈ s
  · rw [setInsert, if_pos hc]
    intro h
    rw [h] at hc
    exact absurd hc (List.not_mem_nil c)
  · rw [setInsert, if_neg hc]
    exact List.cons_ne_nil c s

lemma foldSet_ne_nil : ∀ (cs S : List ℕ), S ≠ [] → foldSet cs S ≠ [] := by
  intro cs
  induction cs with
  | nil => intro S h; exact h
  | cons c cs0 ih =>
    intro S _
    exact ih (setInsert c S) (setInsert_ne_nil c S)

lemma setInsert_nodup (c : ℕ) (S : List ℕ) (h : S.Nodup) :
    (setInsert c S).Nodup := by
  by_cases hc : c ∈ S
  · rw [setInsert, if_pos hc]; exact h
  · rw [setInsert, if_neg hc]; exact List.nodup_cons.mpr ⟨hc, h⟩

lemma foldSet_nodup : ∀ (cs S : List ℕ), S.Nodup → (foldSet cs S).Nodup := by
  intro cs
  induction cs with
  | nil => intro S h; exact h
  | cons c cs0 ih =>
    intro S h
    exact ih (setInsert c S) (setInsert_nodup c S h)

lemma setInsert_mem {x c : ℕ} {S : List ℕ} (h : x ∈ setInsert c S) :
    x = c ∨ x ∈ S := by
  by_cases hc : c ∈ S
  · rw [setInsert, if_pos hc] at h
    exact Or.inr h
  · rw [setInsert, if_neg hc] at h
    exact List.mem_cons.mp h

lemma foldSet_subset :
    ∀ (cs S : List ℕ) (x : ℕ), x ∈ foldSet cs S → x ∈ S ∨ x ∈ cs := by
  intro cs
  induction cs with
  | nil => intro S x h; exact Or.inl h
  | cons c cs0 ih =>
    intro S x h
    rcases ih (setInsert c S) x h with h1 | h2
    · rcases setInsert_mem h1 with rfl | hS
      · exact Or.inr (List.mem_cons_self x cs0)
      · exact Or.inl hS
    · exact Or.inr (List.mem_cons_of_mem c h2)

lemma erase_all_of_subset (u : String) :
    ∀ (L S : List ℕ), S.Nodup → (∀ x ∈ S, x ∈ L) → S ≠ [] →
      ∀ (r : Registry), hasUser u r = false →
        unregisterAll u L (r ++ [(u, S)]) = r := by
  intro L
  induction L with
  | nil =>
    intro S _ hsub hne r _
    exfalso
    cases S with
    | nil => exact hne rfl
    | cons x xs =>
      exact absurd (hsub x (List.mem_cons_self x xs)) (List.not_mem_nil x)
  | cons c L0 ih =>
    intro S hnd hsub hne r hr
    show unregisterAll u L0 (unregister u c (r ++ [(u, S)])) = r
    rw [unregister_append u c S r hr]
    by_cases he : S.erase c = []
    · rw [if_pos he]
      exact unregisterAll_not_online u L0 r hr
    · rw [if_neg he]
      refine ih (S.erase c) (hnd.erase c) ?_ he r hr
      intro x hx
      obtain ⟨hxc, hxS⟩ := (List.Nodup.mem_erase_iff hnd).mp hx
      rcases List.mem_cons.mp (hsub x hxS) with h1 | h2
      · exact absurd h1 hxc
      · exact h2

/-- C8: the registry as implemented keeps the map-membership invariant:
the connection-open and close handlers preserve well-formedness (an entry
exists only with at least one open connection, and the close handler
removes the entry on the last-connection close), and for every user the
registry reports offline, registering any list of connections and then
closing them all restores the registry exactly, so isUserOnline reports
the user offline and getConnectedUsersCount excludes them. -/
theorem registry_connection_invariant :
    (∀ (r : Registry) (u : String) (c : ℕ),
      registryWF r → registryWF (register u c r)) ∧
    (∀ (r : Registry) (u : String) (c : ℕ),
      registryWF r → registryWF (unregister u c r)) ∧
    (∀ (r : Registry) (u : String) (conns : List ℕ),
      registryWF r → isUserOnline u r = false →
      unregisterAll u conns (registerAll u conns r) = r ∧
      isUserOnline u (unregisterAll u conns (registerAll u conns r)) = false ∧
      getConnectedUsersCount (unregisterAll u conns (registerAll u conns r)) =
        getConnectedUsersCount r) := by
  refine ⟨fun r u c h => register_wf u c r h,
    fun r u c h => unregister_wf u c r h, ?_⟩
  intro r u conns hwf hoff
  have hr : hasUser u r = false := by
    rw [← isUserOnline_eq_hasUser u r hwf]
    exact hoff
  have hmain : unregisterAll u conns (registerAll u conns r) = r := by
    cases conns with
    | nil => rfl
    | cons c rest =>
      have h1 : registerAll u (c :: rest) r = r ++ [(u, foldSet rest [c])] := by
        show registerAll u rest (register u c r) = _
        rw [register_not_online u c r hr]
        exact registerAll_append u rest [c] r hr
      rw [h1]
      refine erase_all_of_subset u (c :: rest) (foldSet rest [c])
        (foldSet_nodup rest [c] (List.nodup_singleton c)) ?_
        (foldSet_ne_nil rest [c] (List.cons_ne_nil c [])) r hr
      intro x hx
      rcases foldSet_subset rest [c] x hx with hx1 | hx2
      · rw [List.mem_singleton.mp hx1]
        exact List.mem_cons_self c rest
      · exact List.mem_cons_of_mem c hx2
  exact ⟨hmain, by rw [hmain]; exact hoff, by rw [hmain]⟩

/-- Witness for `registry_connection_invariant`: registering two
connections for a fresh user and closing both leaves the empty registry
and reports the user offline. -/
theorem registry_connection_invariant_witness :
    unregisterAll "u1" [1, 2] (registerAll "u1" [1, 2] []) = [] ∧
    isUserOnline "u1" (unregisterAll "u1" [1, 2] (registerAll "u1" [1, 2] []))
      = false :=
  ⟨(registry_connection_invariant.2.2 [] "u1" [1, 2]
      (fun p hp => absurd hp (List.not_mem_nil p)) rfl).1,
    (registry_connection_invariant.2.2 [] "u1" [1, 2]
      (fun p hp => absurd hp (List.not_mem_nil p)) rfl).2.1⟩

lemma replaceFirstSeq_of_not_infix (pat : List Char) :
    ∀ (l : List Char), ¬ (pat <:+: l) → replaceFirstSeq pat l = l := by
  intro l
  induction l with
  | nil => intro _; rfl
  | cons c cs ih =>
    intro h
    have hpre : ¬ (pat.isPrefixOf (c :: cs) = true) := fun hp =>
      h ((List.isPrefixOf_iff_prefix.mp hp).isInfix)
    simp only [replaceFirstSeq, if_neg hpre]
    rw [ih (fun hi => h (List.infix_cons hi))]

lemma not_infix_of_no_colon (l : List Char) (h : ':' ∉ l) :
    ¬ ("::ffff:".data <:+: l) := fun hi =>
  h (hi.subset (by decide))

lemma replaceFirstSeq_append_self (pat rest : List Char) (hp : pat ≠ []) :
    replaceFirstSeq pat (pat ++ rest) = rest := by
  cases pat with
  | nil => exact absurd rfl hp
  | cons p ps =>
    rw [List.cons_append]
    simp only [replaceFirstSeq]
    have hpre : (p :: ps).isPrefixOf (p :: (ps ++ rest)) = true :=
      List.isPrefixOf_iff_prefix.mpr ⟨rest, rfl⟩
    rw [if_pos hpre, ← List.cons_append, List.drop_left]

lemma maskIp_some_eval (ip : List Char) (hne : ip ≠ []) :
    maskIp (some ip) =
      (maskDot (replaceFirstSeq "::ffff:".data ip)).elim
        (maskColon (replaceFirstSeq "::ffff:".data ip)) some := by
  simp only [maskIp, if_neg hne]

lemma maskDot_four (a b c d : List Char) (ha : '.' ∉ a) (hb : '.' ∉ b)
    (hc : '.' ∉ c) (hd : '.' ∉ d) :
    maskDot (a ++ '.' :: (b ++ '.' :: (c ++ '.' :: d))) =
      some (a ++ '.' :: (b ++ ".0.0".data)) := by
  have hdot : '.' ∈ a ++ '.' :: (b ++ '.' :: (c ++ '.' :: d)) := by simp
  have hsplit : splitOnChar '.' (a ++ '.' :: (b ++ '.' :: (c ++ '.' :: d))) =
      [a, b, c, d] := by
    rw [splitOnChar_append '.' a _ ha, splitOnChar_append '.' b _ hb,
      splitOnChar_append '.' c _ hc, splitOnChar_of_not_mem '.' d hd]
  simp only [maskDot]
  rw [if_pos hdot, hsplit]
  simp

lemma maskDot_no_dot (l : List Char) (h : '.' ∉ l) : maskDot l = none := by
  simp only [maskDot]
  rw [if_neg h]

lemma maskDot_not_four (l : List Char)
    (h4 : (splitOnChar '.' l).length ≠ 4) : maskDot l = none := by
  simp only [maskDot]
  by_cases hdot : '.' ∈ l
  · rw [if_pos hdot, if_neg h4]
  · rw [if_neg hdot]

lemma maskColon_segs (s1 rest : List Char) (hs1 : ':' ∉ s1) :
    maskColon (s1 ++ ':' :: rest) =
      some (joinSep ':' ((s1 :: splitOnChar ':' rest).take 2) ++ "::".data) := by
  have hc : ':' ∈ s1 ++ ':' :: rest := by simp
  simp only [maskColon]
  rw [if_pos hc, splitOnChar_append ':' s1 rest hs1]

lemma maskColon_no_colon (l : List Char) (h : ':' ∉ l) :
    maskColon l = none := by
  simp only [maskColon]
  rw [if_neg h]

/-- C9 counterexample to the never-the-full-input clause: an already-masked
IPv4 address is a fixed point of maskIp, so the masked output can equal the
complete input string. -/
theorem maskIp_full_input_counterexample :
    maskIp (some "1.2.0.0".data) = some "1.2.0.0".data := by decide

/-- C9 amended: maskIp returns undefined on absent or empty input; a
4-octet dotted input (optionally carrying the IPv6-mapped prefix, which is
stripped first) yields its first two octets followed by .0.0; an input with
a colon and no dot yields its first two colon-separated segments followed
by two colons; inputs with neither dot nor colon, and dotted inputs that do
not split into exactly four parts, yield undefined; both ingestion
endpoints persist exactly this masked value in the ipMasked field.  The
output can coincide with the input exactly when the input is already of
masked form (see the counterexample), so the never-the-full-input clause is
dropped. -/
theorem maskIp_shape :
    maskIp none = none ∧
    maskIp (some []) = none ∧
    (∀ ip, postSearchIpMasked ip = maskIp ip ∧
      postClickoutIpMasked ip = maskIp ip) ∧
    (∀ a b c d : List Char,
      ':' ∉ a ++ '.' :: (b ++ '.' :: (c ++ '.' :: d)) →
      '.' ∉ a → '.' ∉ b → '.' ∉ c → '.' ∉ d →
      maskIp (some (a ++ '.' :: (b ++ '.' :: (c ++ '.' :: d)))) =
        some (a ++ '.' :: (b ++ ".0.0".data)) ∧
      maskIp (some ("::ffff:".data ++
          (a ++ '.' :: (b ++ '.' :: (c ++ '.' :: d))))) =
        some (a ++ '.' :: (b ++ ".0.0".data))) ∧
    (∀ s1 s2 rest : List Char,
      ¬ ("::ffff:".data <:+: s1 ++ ':' :: (s2 ++ ':' :: rest)) →
      '.' ∉ s1 ++ ':' :: (s2 ++ ':' :: rest) → ':' ∉ s1 → ':' ∉ s2 →
      maskIp (some (s1 ++ ':' :: (s2 ++ ':' :: rest))) =
        some (s1 ++ ':' :: (s2 ++ "::".data))) ∧
    (∀ s1 s2 : List Char,
      ¬ ("::ffff:".data <:+: s1 ++ ':' :: s2) →
      '.' ∉ s1 ++ ':' :: s2 → ':' ∉ s1 → ':' ∉ s2 →
      maskIp (some (s1 ++ ':' :: s2)) =
        some (s1 ++ ':' :: (s2 ++ "::".data))) ∧
    (∀ l : List Char, l ≠ [] → '.' ∉ l → ':' ∉ l →
      maskIp (some l) = none) ∧
    (∀ l : List Char, ':' ∉ l → '.' ∈ l →
      (splitOnChar '.' l).length ≠ 4 → maskIp (some l) = none) := by
  refine ⟨rfl, rfl, fun ip => ⟨rfl, rfl⟩, ?_, ?_, ?_, ?_, ?_⟩
  · intro a b c d hcol ha hb hc hd
    constructor
    · rw [maskIp_some_eval _ (by intro h; simpa using congrArg List.length h),
        replaceFirstSeq_of_not_infix _ _ (not_infix_of_no_colon _ hcol),
        maskDot_four a b c d ha hb hc hd, Option.elim_some]
    · rw [maskIp_some_eval _ (by intro h; simpa using congrArg List.length h),
        replaceFirstSeq_append_self _ _ (by decide),
        maskDot_four a b c d ha hb hc hd, Option.elim_some]
  · intro s1 s2 rest hpat hdot hs1 hs2
    rw [maskIp_some_eval _ (by intro h; simpa using congrArg List.length h),
      replaceFirstSeq_of_not_infix _ _ hpat,
      maskDot_no_dot _ hdot, Option.elim_none,
      maskColon_segs s1 _ hs1, splitOnChar_append ':' s2 rest hs2]
    show some ((s1 ++ (':' :: s2)) ++ "::".data) =
      some (s1 ++ ':' :: (s2 ++ "::".data))
    rw [List.append_assoc, List.cons_append]
  · intro s1 s2 hpat hdot hs1 hs2
    rw [maskIp_some_eval _ (by intro h; simpa using congrArg List.length h),
      replaceFirstSeq_of_not_infix _ _ hpat,
      maskDot_no_dot _ hdot, Option.elim_none,
      maskColon_segs s1 _ hs1, splitOnChar_of_not_mem ':' s2 hs2]
    show some ((s1 ++ (':' :: s2)) ++ "::".data) =
      some (s1 ++ ':' :: (s2 ++ "::".data))
    rw [List.append_assoc, List.cons_append]
  · intro l hne hdot hcol
    rw [maskIp_some_eval _ hne,
      replaceFirstSeq_of_not_infix _ _ (not_infix_of_no_colon _ hcol),
      maskDot_no_dot _ hdot, Option.elim_none, maskColon_no_colon _ hcol]
  · intro l hcol hdot h4
    have hne : l ≠ [] := by
      intro h
      rw [h] at hdot
      exact absurd hdot (List.not_mem_nil _)
    rw [maskIp_some_eval _ hne,
      replaceFirstSeq_of_not_infix _ _ (not_infix_of_no_colon _ hcol),
      maskDot_not_four _ h4, Option.elim_none, maskColon_no_colon _ hcol]

/-- Witness for `maskIp_shape`: a plain IPv4 address and its IPv6-mapped
form both mask to the first two octets followed by .0.0. -/
theorem maskIp_shape_witness :
    maskIp (some ("192".data ++ '.' :: ("168".data ++ '.' :: ("1".data ++
        '.' :: "77".data)))) =
      some ("192".data ++ '.' :: ("168".data ++ ".0.0".data)) ∧
    maskIp (some ("::ffff:".data ++ ("192".data ++ '.' :: ("168".data ++
        '.' :: ("1".data ++ '.' :: "77".data))))) =
      some ("192".data ++ '.' :: ("168".data ++ ".0.0".data)) :=
  maskIp_shape.2.2.2.1 "192".data "168".data "1".data "77".data
    (by decide) (by decide) (by decide) (by decide) (by decide)

lemma bumpCountry_sum :
    ∀ (agg : List (List Char × ℕ)) (k : List Char),
      ((bumpCountry agg k).map (fun p => p.2)).sum =
        ((agg.map (fun p => p.2)).sum) + 1 := by
  intro agg
  induction agg with
  | nil => intro k; simp [bumpCountry]
  | cons e rest ih =>
    obtain ⟨k0, n⟩ := e
    intro k
    simp only [bumpCountry]
    by_cases hk : k0 = k
    · rw [if_pos hk]
      simp only [List.map_cons, List.sum_cons]
      omega
    · rw [if_neg hk]
      simp only [List.map_cons, List.sum_cons, ih k]
      omega

lemma countryAgg_sum_aux :
    ∀ (rows : List (List Char)) (agg : List (List Char × ℕ)),
      (((rows.foldl (fun agg r => bumpCountry agg (countryKey r)) agg)).map
          (fun p => p.2)).sum =
        ((agg.map (fun p => p.2)).sum) + rows.length := by
  intro rows
  induction rows with
  | nil => intro agg; simp
  | cons r rows0 ih =>
    intro agg
    rw [List.foldl_cons, ih (bumpCountry agg (countryKey r)),
      bumpCountry_sum agg (countryKey r), List.length_cons]
    omega

lemma countryAgg_sum (rows : List (List Char)) :
    ((countryAgg rows).map (fun p => p.2)).sum = rows.length := by
  unfold countryAgg
  rw [countryAgg_sum_aux rows []]
  simp

lemma insertCountDesc_sum (p : List Char × ℕ) :
    ∀ (l : List (List Char × ℕ)),
      ((insertCountDesc p l).map (fun q => q.2)).sum =
        p.2 + (l.map (fun q => q.2)).sum := by
  intro l
  induction l with
  | nil => simp [insertCountDesc]
  | cons q qs ih =>
    simp only [insertCountDesc]
    by_cases hq : q.2 ≤ p.2
    · rw [if_pos hq]
      simp [List.sum_cons]
    · rw [if_neg hq]
      simp only [List.map_cons, List.sum_cons, ih]
      omega

lemma sortCountDesc_sum (l : List (List Char × ℕ)) :
    ((sortCountDesc l).map (fun q => q.2)).sum =
      (l.map (fun q => q.2)).sum := by
  induction l with
  | nil => rfl
  | cons p ps ih =>
    show ((insertCountDesc p (sortCountDesc ps)).map (fun q => q.2)).sum = _
    rw [insertCountDesc_sum p (sortCountDesc ps), ih]
    simp

/-- C10: the country rollup is count-preserving: the sum of the searches
values over all returned entries, the optional Other entry included, equals
the number of fetched in-window rows with non-null country; the top
parameter is clamped to [1, 12] with default 6; and the Other entry is
appended exactly when the tail beyond the top-N has a positive total. -/
theorem geo_country_rollup (rows : List (List Char)) (topQ : Option ℤ) :
    ((geoCountryResult rows topQ).map (fun p => p.2)).sum = rows.length ∧
    1 ≤ clampTop topQ ∧ clampTop topQ ≤ 12 ∧ clampTop none = 6 ∧
    (0 < ((((sortCountDesc (countryAgg rows)).drop
          (clampTop topQ).toNat).map (fun p => p.2)).sum) →
      geoCountryResult rows topQ =
        (sortCountDesc (countryAgg rows)).take (clampTop topQ).toNat ++
          [("Other".data,
            (((sortCountDesc (countryAgg rows)).drop
              (clampTop topQ).toNat).map (fun p => p.2)).sum)]) ∧
    ((((sortCountDesc (countryAgg rows)).drop
          (clampTop topQ).toNat).map (fun p => p.2)).sum = 0 →
      geoCountryResult rows topQ =
        (sortCountDesc (countryAgg rows)).take (clampTop topQ).toNat) := by
  have hsplitsum :
      (((sortCountDesc (countryAgg rows)).take (clampTop topQ).toNat).map
            (fun p => p.2)).sum +
          (((sortCountDesc (countryAgg rows)).drop (clampTop topQ).toNat).map
            (fun p => p.2)).sum =
        rows.length := by
    rw [List.map_take, List.map_drop, List.sum_take_add_sum_drop,
      sortCountDesc_sum, countryAgg_sum]
  refine ⟨?_, ?_, ?_, rfl, ?_, ?_⟩
  · simp only [geoCountryResult]
    by_cases ho : 0 < (((sortCountDesc (countryAgg rows)).drop
        (clampTop topQ).toNat).map (fun p => p.2)).sum
    · rw [if_pos ho]
      simp only [List.map_append, List.sum_append, List.map_cons,
        List.sum_cons, List.map_nil, List.sum_nil]
      omega
    · rw [if_neg ho]
      omega
  · simp only [clampTop]
    omega
  · simp only [clampTop]
    omega
  · intro ho
    simp only [geoCountryResult]
    rw [if_pos ho]
  · intro ho
    simp only [geoCountryResult]
    rw [if_neg (by omega)]

/-- Witness for `geo_country_rollup`: three rows over two countries with
top = 1 produce the top country plus an Other entry absorbing the tail. -/
theorem geo_country_rollup_witness :
    geoCountryResult ["US".data, "US".data, "DE".data] (some 1) =
      (sortCountDesc (countryAgg ["US".data, "US".data, "DE".data])).take
          (clampTop (some 1)).toNat ++
        [("Other".data,
          (((sortCountDesc (countryAgg ["US".data, "US".data, "DE".data])).drop
            (clampTop (some 1)).toNat).map (fun p => p.2)).sum)] :=
  (geo_country_rollup ["US".data, "US".data, "DE".data] (some 1)).2.2.2.2.1
    (by decide)

end FlyArzan
